import Mathlib

/-!
A shallow embedding of the `localCache` of covrom/cache (src/local.go) and
proofs about its user-visible operations.

The artifact contains `local.go`; the helper files defining the `entry`
record, the concurrent hash table `cache` and the replacement `policy` are
not part of it, so those collaborators are modelled from the spec (§3 data
model, §4.3 policy contract), as marked on each definition.  Operations are
modelled as pure state transformers: the three event channels are lists of
the messages sent on them (snapshots at send time), stats counters are
fields of the state, and every call site of `currentTime` becomes an
explicit `Int` nanosecond-timestamp parameter.
-/

namespace CovromCache

/-- Keys are opaque, equality-comparable, hashable values; modelled as naturals. -/
abbrev Key := Nat

/-- Cached values (Go `Value` is an opaque interface); modelled as naturals.
`Option Value` models a possibly-nil Go interface value in results. -/
abbrev Value := Nat

/-- Loader errors are opaque; modelled as naturals. -/
abbrev Err := Nat

/-- Modelled from the spec: the key hash function `sum` is an external
collaborator, "hash(key) → 64-bit integer, deterministic" (§6); its source is
not in the artifact.  Any deterministic function is faithful; identity is used. -/
def sum (k : Key) : Nat := k

/-- Modelled from the spec: the per-key `entry` record of §3 — key, precomputed
hash, value, access/write timestamps in nanoseconds, and the `invalidated` and
`loading` flags (its source file is not in the artifact). -/
structure Entry where
  key : Key
  hash : Nat
  value : Value
  accessTime : Int
  writeTime : Int
  invalidated : Bool
  loading : Bool
deriving Repr, DecidableEq

/-- Go `newEntry(k, v, h)` builds a fresh entry; timestamps are set by callers
(`Put` and `load` set them to `now`), flags start false. -/
def newEntry (k : Key) (v : Value) (h : Nat) : Entry :=
  { key := k, hash := h, value := v, accessTime := 0, writeTime := 0,
    invalidated := false, loading := false }

/-- Modelled from the spec: the hash table's `get(k, h) → entry | absent` (§3),
on an association-list model of the table. -/
def tableGet : List Entry → Key → Option Entry
  | [], _ => none
  | en :: rest, k => if en.key = k then some en else tableGet rest k

/-- In-place mutation of a shared entry, as seen through the table: replace the
entry stored under `k` (Go setters mutate the entry object the table points to). -/
def tableUpdate : List Entry → Key → Entry → List Entry
  | [], _, _ => []
  | en :: rest, k, e => if en.key = k then e :: rest else en :: tableUpdate rest k e

/-- Modelled from the spec: the hash table's
`get-or-set(entry) → existing | null` (§3): inserts the given entry if the key
is absent, otherwise returns the pre-existing entry without mutation. -/
def getOrSet (t : List Entry) (e : Entry) : Option Entry × List Entry :=
  match tableGet t e.key with
  | some ex => (some ex, t)
  | none => (none, t ++ [e])

/-- The user-configuration fields of `localCache` that the modelled operations
read: the three durations (nanoseconds, as `time.Duration` is an int64 count of
nanoseconds), the capacity `cap`, and the loader (`none` models a nil
`LoaderFunc`).  The loader itself returns a value or an error. -/
structure Config where
  expireAfterAccess : Int
  expireAfterWrite : Int
  refreshAfterWrite : Int
  cap : Int
  loader : Option (Key → Except Err Value)

/-- The mutable state of a `localCache`: the hash table, the three event
channels (`addEntry`, `hitEntry`, `deleteEntry`) as lists of sent messages
(`none` on the delete channel is the remove-all sentinel), the stats counters
(load stats keep the recorded durations), and the number of refresh tasks
handed to the executor / spawned as goroutines. -/
structure CacheState where
  table : List Entry
  addQ : List Entry
  hitQ : List Entry
  deleteQ : List (Option Entry)
  hits : Nat
  misses : Nat
  loadSuccesses : List Int
  loadErrors : List Int
  submitted : Nat
deriving Repr, DecidableEq

/-- Constant `maximumCapacity` (src/local.go:11): default maximum number of entries. -/
def maximumCapacity : Int := 1 <<< 30

/-- Constant `drainMax` (src/local.go:15): maximum entries drained in a single cleanup. -/
def drainMax : Nat := 16

/-- Embeds `localCache.isExpired` (src/local.go:361-374).  `now.Add(-d).UnixNano()`
is `now - d` on nanosecond timestamps. -/
def isExpired (c : Config) (en : Entry) (now : Int) : Bool :=
  if en.invalidated then true
  else if c.expireAfterAccess > 0 ∧ en.accessTime < now - c.expireAfterAccess then true
  else if c.expireAfterWrite > 0 ∧ en.writeTime < now - c.expireAfterWrite then true
  else false

/-- Embeds `localCache.needRefresh` (src/local.go:376-388). -/
def needRefresh (c : Config) (en : Entry) (now : Int) : Bool :=
  if en.loading then false
  else if c.refreshAfterWrite > 0 then
    if en.writeTime > 0 ∧ en.writeTime < now - c.refreshAfterWrite then true else false
  else false

/-- Embeds `localCache.GetIfPresent` (src/local.go:88-104): miss on absent; on an
expired entry record a miss, send the entry on the delete channel and report
not found; otherwise record a hit, bump the access time, send a hit event and
return the value. -/
def GetIfPresent (c : Config) (s : CacheState) (k : Key) (now : Int) :
    (Option Value × Bool) × CacheState :=
  match tableGet s.table k with
  | none => ((none, false), { s with misses := s.misses + 1 })
  | some en =>
    if isExpired c en now then
      ((none, false),
        { s with misses := s.misses + 1, deleteQ := s.deleteQ ++ [some en] })
    else
      let en' := { en with accessTime := now }
      ((some en.value, true),
        { s with hits := s.hits + 1, table := tableUpdate s.table k en',
                 hitQ := s.hitQ ++ [en'] })

/-- Embeds `localCache.Put` (src/local.go:107-130): on an absent key build a new entry
with both timestamps `now` and insert it into the table via `get-or-set` only
when `cap == 0` or `len < cap` (re-using a racing insert's entry if one
appears); on a present key overwrite value and write time.  The resulting
entry is sent on the add channel in every case. -/
def Put (c : Config) (s : CacheState) (k : Key) (v : Value) (now : Int) : CacheState :=
  match tableGet s.table k with
  | none =>
    let en := { newEntry k v (sum k) with writeTime := now, accessTime := now }
    if c.cap = 0 ∨ (s.table.length : Int) < c.cap then
      match getOrSet s.table en with
      | (some cen, t) =>
        let cen' := { cen with value := v }
        { s with table := tableUpdate t k cen', addQ := s.addQ ++ [cen'] }
      | (none, t) => { s with table := t, addQ := s.addQ ++ [en] }
    else
      { s with addQ := s.addQ ++ [en] }
  | some en =>
    let en' := { en with value := v, writeTime := now }
    { s with table := tableUpdate s.table k en', addQ := s.addQ ++ [en'] }

/-- Embeds `localCache.Invalidate` (src/local.go:133-139): if present, set the
`invalidated` flag and send the entry on the delete channel. -/
def Invalidate (c : Config) (s : CacheState) (k : Key) : CacheState :=
  match tableGet s.table k with
  | none => s
  | some en =>
    let en' := { en with invalidated := true }
    { s with table := tableUpdate s.table k en', deleteQ := s.deleteQ ++ [some en'] }

/-- The caller-visible outcome of a loading-cache operation: either a Go panic
with its message, or a `(Value, error)` pair (`none` models nil). -/
inductive GetOutcome where
  | panicked (msg : String)
  | ok (v : Option Value) (e : Option Err)
deriving Repr, DecidableEq

/-- Embeds `localCache.load` (src/local.go:268-287): panic when no loader is set;
otherwise call the loader between times `start` and `finish` (two
`currentTime` captures).  On error record `load-error(elapsed)` and return the
error; on success record `load-success(elapsed)`, build a fresh entry with
both timestamps `finish` and send it on the add channel. -/
def load (c : Config) (s : CacheState) (k : Key) (start finish : Int) :
    GetOutcome × CacheState :=
  match c.loader with
  | none => (.panicked "cache loader function must be set", s)
  | some f =>
    match f k with
    | .error e =>
      (.ok none (some e), { s with loadErrors := s.loadErrors ++ [finish - start] })
    | .ok v =>
      let en := { newEntry k v (sum k) with writeTime := finish, accessTime := finish }
      (.ok (some v) none,
        { s with loadSuccesses := s.loadSuccesses ++ [finish - start],
                 addQ := s.addQ ++ [en] })

/-- Embeds `localCache.refreshAsync` (src/local.go:289-301), for a loader-configured
cache acting on an entry in the table (its call sites pass an entry just read
or written there).  Modelled from the spec for the missing `entry.setLoading`:
atomically transition `loading` from false to true, submitting one refresh
task exactly when the transition happens (whether to an executor or a fresh
goroutine is not observable here). -/
def refreshAsync (s : CacheState) (k : Key) : CacheState :=
  match tableGet s.table k with
  | none => s
  | some en =>
    if en.loading then s
    else
      { s with table := tableUpdate s.table k { en with loading := true },
               submitted := s.submitted + 1 }

/-- Embeds `localCache.refresh` (src/local.go:307-323): call the loader between
`start` and `finish`; on success record `load-success`, store the new value
and write time and send the entry on the add channel; on error record
`load-error` and keep the old value.  In both cases the deferred
`setLoading(false)` clears the flag on return.  (A nil loader is unreachable:
refresh is only scheduled by `refreshAsync`, which requires a loader.) -/
def refresh (c : Config) (s : CacheState) (k : Key) (start finish : Int) : CacheState :=
  match c.loader with
  | none => s
  | some f =>
    match tableGet s.table k with
    | none =>
      match f k with
      | .ok _ => { s with loadSuccesses := s.loadSuccesses ++ [finish - start] }
      | .error _ => { s with loadErrors := s.loadErrors ++ [finish - start] }
    | some en =>
      match f k with
      | .ok v =>
        let en1 := { en with value := v, writeTime := finish }
        { s with loadSuccesses := s.loadSuccesses ++ [finish - start],
                 addQ := s.addQ ++ [en1],
                 table := tableUpdate s.table k { en1 with loading := false } }
      | .error _ =>
        { s with loadErrors := s.loadErrors ++ [finish - start],
                 table := tableUpdate s.table k { en with loading := false } }

/-- Embeds `localCache.Get` (src/local.go:152-176): on an absent key record a miss and
synchronously `load` (which panics when no loader is set).  On a present
expired entry record a miss, then: with no loader send a delete event; with a
loader bump the access time and call `refreshAsync`; either way return the
current (stale) value with a nil error.  On a fresh entry record a hit, bump
the access time, send a hit event and return the value.  `finish` is the
second `currentTime` capture of a synchronous load. -/
def Get (c : Config) (s : CacheState) (k : Key) (now finish : Int) :
    GetOutcome × CacheState :=
  match tableGet s.table k with
  | none => load c { s with misses := s.misses + 1 } k now finish
  | some en =>
    if isExpired c en now then
      let s1 := { s with misses := s.misses + 1 }
      match c.loader with
      | none => (.ok (some en.value) none, { s1 with deleteQ := s1.deleteQ ++ [some en] })
      | some _ =>
        let s2 := { s1 with table := tableUpdate s1.table k { en with accessTime := now } }
        (.ok (some en.value) none, refreshAsync s2 k)
    else
      let en' := { en with accessTime := now }
      (.ok (some en.value) none,
        { s with hits := s.hits + 1, table := tableUpdate s.table k en',
                 hitQ := s.hitQ ++ [en'] })

/-- Embeds `localCache.Refresh` (src/local.go:180-190): no-op without a loader;
synchronously load an absent key (discarding the result), schedule an
asynchronous refresh for a present one. -/
def Refresh (c : Config) (s : CacheState) (k : Key) (now finish : Int) : CacheState :=
  match c.loader with
  | none => s
  | some _ =>
    match tableGet s.table k with
    | none => (load c s k now finish).2
    | some _ => refreshAsync s k

/-- The recursive body of `expireEntries`'s `walkAccess` callback
(src/local.go:348-358) on the policy's ascending-access-time entry list
(`walk-by-access` is modelled from the spec's policy contract, §4.3): stop at
the first entry with `accessTime ≥ expire`; otherwise remove the entry
(`remain--`) and continue while `remain > 0`.  Returns the remaining list and
the removed entries; each removal fires the removal listener and records one
eviction. -/
def expireWalk (expire : Int) : Nat → List Entry → List Entry × List Entry
  | _, [] => ([], [])
  | remain, en :: rest =>
    if en.accessTime ≥ expire then (en :: rest, [])
    else
      let remain' := remain - 1
      if remain' > 0 then
        let r := expireWalk expire remain' rest
        (r.1, en :: r.2)
      else (rest, [en])

/-- Embeds `localCache.expireEntries` (src/local.go:342-359): a no-op unless
`expireAfterAccess > 0`; otherwise sweep with cutoff `now - expireAfterAccess`
and budget `drainMax`. -/
def expireEntries (c : Config) (now : Int) (entries : List Entry) :
    List Entry × List Entry :=
  if c.expireAfterAccess ≤ 0 then (entries, [])
  else expireWalk (now - c.expireAfterAccess) drainMax entries

/-- Embeds `WithMaximumSize` (src/local.go:425-435): negative sizes become 0
(unlimited) and sizes above `maximumCapacity` are clamped to it, before
storing into `cap`. -/
def WithMaximumSize (size : Int) (c : Config) : Config :=
  let size1 := if size < 0 then 0 else size
  let size2 := if size1 > maximumCapacity then maximumCapacity else size1
  { c with cap := size2 }

/-! ### Basic facts about the table model -/

theorem tableGet_key {t : List Entry} {k : Key} {en : Entry}
    (h : tableGet t k = some en) : en.key = k := by
  induction t with
  | nil => simp [tableGet] at h
  | cons e rest ih =>
    unfold tableGet at h
    by_cases he : e.key = k
    · rw [if_pos he] at h
      cases h
      exact he
    · rw [if_neg he] at h
      exact ih h

theorem tableGet_update_self {t : List Entry} {k : Key} {en : Entry} (e' : Entry)
    (h : tableGet t k = some en) (hk : e'.key = k) :
    tableGet (tableUpdate t k e') k = some e' := by
  induction t with
  | nil => simp [tableGet] at h
  | cons e rest ih =>
    unfold tableGet at h
    by_cases he : e.key = k
    · simp [tableUpdate, he, tableGet, hk]
    · simp [he] at h
      simp [tableUpdate, he, tableGet]
      exact ih h

theorem tableGet_append_of_none {t : List Entry} {k : Key} (e : Entry)
    (h : tableGet t k = none) (hk : e.key = k) :
    tableGet (t ++ [e]) k = some e := by
  induction t with
  | nil => simp [tableGet, hk]
  | cons e0 rest ih =>
    unfold tableGet at h
    by_cases he : e0.key = k
    · simp [he] at h
    · simp [he] at h
      simpa [tableGet, he] using ih h

/-- The table entry under `k` after `Put c s k v now`: an updated entry when
`k` was present, the fresh entry when it was absent and within capacity,
absent otherwise. -/
theorem put_table_lookup (c : Config) (s : CacheState) (k : Key) (v : Value) (now : Int) :
    tableGet (Put c s k v now).table k =
      match tableGet s.table k with
      | some en => some { en with value := v, writeTime := now }
      | none =>
        if c.cap = 0 ∨ (s.table.length : Int) < c.cap
        then some { newEntry k v (sum k) with writeTime := now, accessTime := now }
        else none := by
  unfold Put
  cases htg : tableGet s.table k with
  | some en =>
    simp only [htg]
    apply tableGet_update_self
    · exact htg
    · show en.key = k
      exact tableGet_key htg
  | none =>
    by_cases hcap : c.cap = 0 ∨ (s.table.length : Int) < c.cap
    · simp [getOrSet, newEntry, htg, hcap]
      exact tableGet_append_of_none _ htg rfl
    · simp [htg, hcap]

/-- Helper: `GetIfPresent` on a present, unexpired entry returns its value and true. -/
theorem getIfPresent_hit (c : Config) (s : CacheState) (k : Key) (now : Int)
    {en : Entry} (hen : tableGet s.table k = some en)
    (hfresh : isExpired c en now = false) :
    (GetIfPresent c s k now).1 = (some en.value, true) := by
  unfold GetIfPresent
  simp [hen, hfresh]

/-! ### Claim theorems -/

/-- C2: an entry is expired at `now` iff it is invalidated, or access-expiry is
enabled and its access time predates `now - expireAfterAccess`, or write-expiry
is enabled and its write time predates `now - expireAfterWrite`; when none of
the three holds it is fresh. -/
theorem isExpired_characterization (c : Config) (en : Entry) (now : Int) :
    isExpired c en now = true ↔
      (en.invalidated = true ∨
        (0 < c.expireAfterAccess ∧ en.accessTime < now - c.expireAfterAccess) ∨
        (0 < c.expireAfterWrite ∧ en.writeTime < now - c.expireAfterWrite)) := by
  unfold isExpired
  split_ifs with h1 h2 h3 <;> simp_all

/-- C1 (counterexample): with `cap = 1` and the table already holding one
entry, `Put` of key 1 does not insert into the table, so the immediately
following `GetIfPresent` of key 1 returns not-found rather than `(5, true)`. -/
theorem put_at_capacity_then_get_misses :
    (GetIfPresent ⟨0, 0, 0, 1, none⟩
        (Put ⟨0, 0, 0, 1, none⟩
          ⟨[newEntry 0 7 0], [], [], [], 0, 0, [], [], 0⟩ 1 5 0)
        1 0).1 = (none, false) := by
  decide

/-- C1 (amended): after `Put k v`, whenever the table holds an entry for `k`
that is not expired at `now` — which is the case when `k` was already present
(not invalidated nor already expired), and when `k` was absent with `cap = 0`
or `len < cap` — an immediately following `GetIfPresent k` returns `(v, true)`.
When `k` was absent and the table was at capacity the entry is only sent on
the add channel, and `GetIfPresent` misses until the maintenance task admits
it. -/
theorem getIfPresent_after_put (c : Config) (s : CacheState) (k : Key) (v : Value)
    (now : Int) (en : Entry)
    (hen : tableGet (Put c s k v now).table k = some en)
    (hfresh : isExpired c en now = false) :
    (GetIfPresent c (Put c s k v now) k now).1 = (some v, true) := by
  have h1 := getIfPresent_hit c (Put c s k v now) k now hen hfresh
  have hval : en.value = v := by
    rw [put_table_lookup] at hen
    cases htg : tableGet s.table k with
    | some e0 => rw [htg] at hen; simp at hen; rw [← hen]
    | none =>
      rw [htg] at hen
      by_cases hcap : c.cap = 0 ∨ (s.table.length : Int) < c.cap
      · simp [hcap] at hen; rw [← hen]; rfl
      · simp [hcap] at hen
  rw [hval] at h1
  exact h1

/-- C1 (amended, witness): concrete unlimited cache, `Put 1 5` then
`GetIfPresent 1` at the same instant yields `(5, true)`. -/
theorem getIfPresent_after_put_witness :
    tableGet (Put ⟨0, 0, 0, 0, none⟩ ⟨[], [], [], [], 0, 0, [], [], 0⟩ 1 5 0).table 1 =
        some ⟨1, 1, 5, 0, 0, false, false⟩ ∧
    isExpired ⟨0, 0, 0, 0, none⟩ ⟨1, 1, 5, 0, 0, false, false⟩ 0 = false ∧
    (GetIfPresent ⟨0, 0, 0, 0, none⟩
        (Put ⟨0, 0, 0, 0, none⟩ ⟨[], [], [], [], 0, 0, [], [], 0⟩ 1 5 0) 1 0).1 =
      (some 5, true) :=
  ⟨by decide, by decide,
    getIfPresent_after_put ⟨0, 0, 0, 0, none⟩ ⟨[], [], [], [], 0, 0, [], [], 0⟩ 1 5 0
      ⟨1, 1, 5, 0, 0, false, false⟩ (by decide) (by decide)⟩

/-- C10: `Get` of an absent key on a cache with no loader panics with
"cache loader function must be set" (after recording the miss); the nil-loader
guard sits only in the expired branch, not on the absent-key path. -/
theorem get_absent_no_loader_panics (c : Config) (s : CacheState) (k : Key)
    (now finish : Int) (hl : c.loader = none) (hk : tableGet s.table k = none) :
    Get c s k now finish =
      (.panicked "cache loader function must be set",
        { s with misses := s.misses + 1 }) := by
  unfold Get load
  simp [hk, hl]

/-- C10 (witness): on an empty no-loader cache, `Get 0` panics. -/
theorem get_absent_no_loader_panics_witness :
    Get ⟨0, 0, 0, 0, none⟩ ⟨[], [], [], [], 0, 0, [], [], 0⟩ 0 0 0 =
      (.panicked "cache loader function must be set",
        ⟨[], [], [], [], 0, 1, [], [], 0⟩) :=
  get_absent_no_loader_panics ⟨0, 0, 0, 0, none⟩ ⟨[], [], [], [], 0, 0, [], [], 0⟩
    0 0 0 rfl rfl

/-- An invalidated entry is expired at every time. -/
theorem isExpired_of_invalidated (c : Config) {en : Entry} (now : Int)
    (h : en.invalidated = true) : isExpired c en now = true := by
  unfold isExpired
  simp [h]

/-- C3: when the loader fails, the synchronous `load` records a load-error
with the elapsed time and returns `(nil, err)`; the state is otherwise
untouched — same table, same channels, no new entry. -/
theorem load_error_non_polluting (c : Config) (s : CacheState) (k : Key)
    (start finish : Int) (f : Key → Except Err Value) (e : Err)
    (hl : c.loader = some f) (he : f k = .error e) :
    load c s k start finish =
      (.ok none (some e),
        { s with loadErrors := s.loadErrors ++ [finish - start] }) := by
  simp [load, hl, he]

/-- C3 (witness): a loader that always fails with error 3, timed from 0 to 2,
records elapsed 2 and leaves the empty cache empty. -/
theorem load_error_non_polluting_witness :
    load ⟨0, 0, 0, 0, some fun _ => .error 3⟩ ⟨[], [], [], [], 0, 0, [], [], 0⟩ 0 0 2 =
      (.ok none (some 3), ⟨[], [], [], [], 0, 0, [], [2], 0⟩) :=
  load_error_non_polluting ⟨0, 0, 0, 0, some fun _ => .error 3⟩
    ⟨[], [], [], [], 0, 0, [], [], 0⟩ 0 0 2 (fun _ => .error 3) 3 rfl rfl

/-- C4: `Invalidate` on a present key sets the `invalidated` flag in the table
and sends one delete event; afterwards — before any maintenance processing —
`GetIfPresent` on that key reports not-found and records a miss. -/
theorem invalidate_observable (c : Config) (s : CacheState) (k : Key) (en : Entry)
    (now : Int) (hen : tableGet s.table k = some en) :
    tableGet (Invalidate c s k).table k = some { en with invalidated := true } ∧
    (Invalidate c s k).deleteQ = s.deleteQ ++ [some { en with invalidated := true }] ∧
    (GetIfPresent c (Invalidate c s k) k now).1 = (none, false) ∧
    (GetIfPresent c (Invalidate c s k) k now).2.misses = (Invalidate c s k).misses + 1 := by
  have htab : tableGet (Invalidate c s k).table k = some { en with invalidated := true } := by
    unfold Invalidate
    simp only [hen]
    apply tableGet_update_self
    · exact hen
    · show en.key = k
      exact tableGet_key hen
  have hdel : (Invalidate c s k).deleteQ = s.deleteQ ++ [some { en with invalidated := true }] := by
    unfold Invalidate
    simp only [hen]
  have hexp : isExpired c { en with invalidated := true } now = true :=
    isExpired_of_invalidated c now rfl
  refine ⟨htab, hdel, ?_, ?_⟩
  · unfold GetIfPresent
    simp [htab, hexp]
  · unfold GetIfPresent
    simp [htab, hexp]

/-- C4 (witness): invalidating the sole entry of a concrete cache makes an
immediate `GetIfPresent` miss. -/
theorem invalidate_observable_witness :
    tableGet [(⟨1, 1, 5, 0, 0, false, false⟩ : Entry)] 1 = some ⟨1, 1, 5, 0, 0, false, false⟩ ∧
    (GetIfPresent ⟨0, 0, 0, 0, none⟩
        (Invalidate ⟨0, 0, 0, 0, none⟩
          ⟨[⟨1, 1, 5, 0, 0, false, false⟩], [], [], [], 0, 0, [], [], 0⟩ 1) 1 0).1 =
      (none, false) :=
  ⟨by decide,
    (invalidate_observable ⟨0, 0, 0, 0, none⟩
      ⟨[⟨1, 1, 5, 0, 0, false, false⟩], [], [], [], 0, 0, [], [], 0⟩ 1
      ⟨1, 1, 5, 0, 0, false, false⟩ 0 (by decide)).2.2.1⟩

/-- C5: `Get` on a present but expired entry records a miss and returns the
stale value with a nil error.  Without a loader it sends a delete event;
with a loader it bumps the access time to `now` and applies `refreshAsync`
(which submits one refresh task when the entry was not already loading). -/
theorem get_expired_serves_stale (c : Config) (s : CacheState) (k : Key) (en : Entry)
    (now finish : Int) (hen : tableGet s.table k = some en)
    (hex : isExpired c en now = true) :
    (c.loader = none →
      Get c s k now finish =
        (.ok (some en.value) none,
          { s with misses := s.misses + 1, deleteQ := s.deleteQ ++ [some en] })) ∧
    (∀ f, c.loader = some f →
      Get c s k now finish =
        (.ok (some en.value) none,
          refreshAsync
            { s with misses := s.misses + 1,
                     table := tableUpdate s.table k { en with accessTime := now } } k) ∧
      (en.loading = false →
        (Get c s k now finish).2.submitted = s.submitted + 1 ∧
        (Get c s k now finish).2.misses = s.misses + 1)) := by
  have hkey : en.key = k := tableGet_key hen
  constructor
  · intro hl
    unfold Get
    simp [hen, hex, hl]
  · intro f hl
    have hbody : Get c s k now finish =
        (.ok (some en.value) none,
          refreshAsync
            { s with misses := s.misses + 1,
                     table := tableUpdate s.table k { en with accessTime := now } } k) := by
      unfold Get
      simp [hen, hex, hl]
    refine ⟨hbody, ?_⟩
    intro hload
    have htab : tableGet
        (tableUpdate s.table k { en with accessTime := now }) k =
        some { en with accessTime := now } := by
      apply tableGet_update_self
      · exact hen
      · show en.key = k
        exact hkey
    rw [hbody]
    unfold refreshAsync
    rw [htab]
    simp [hload]

/-- C5 (witness): a loader-configured cache whose sole entry is
access-expired at `now = 100`: `Get` returns the stale value 5 with no error
and submits exactly one refresh task. -/
theorem get_expired_serves_stale_witness :
    tableGet [(⟨1, 1, 5, 0, 0, false, false⟩ : Entry)] 1 = some ⟨1, 1, 5, 0, 0, false, false⟩ ∧
    isExpired ⟨10, 0, 0, 0, some fun _ => .ok 9⟩ ⟨1, 1, 5, 0, 0, false, false⟩ 100 = true ∧
    (Get ⟨10, 0, 0, 0, some fun _ => .ok 9⟩
        ⟨[⟨1, 1, 5, 0, 0, false, false⟩], [], [], [], 0, 0, [], [], 0⟩ 1 100 100).2.submitted = 1 :=
  ⟨by decide, by decide,
    (((get_expired_serves_stale ⟨10, 0, 0, 0, some fun _ => .ok 9⟩
        ⟨[⟨1, 1, 5, 0, 0, false, false⟩], [], [], [], 0, 0, [], [], 0⟩ 1
        ⟨1, 1, 5, 0, 0, false, false⟩ 100 100 (by decide) (by decide)).2
      (fun _ => .ok 9) rfl).2 rfl).1⟩

/-- The sweep body removes exactly the longest prefix of entries with
`accessTime < expire`, truncated to the `remain` budget, and leaves the rest. -/
theorem expireWalk_eq (expire : Int) (l : List Entry) :
    ∀ r : Nat,
      expireWalk expire (r + 1) l =
        (l.drop (min (r + 1)
            (l.takeWhile fun en => decide (en.accessTime < expire)).length),
         (l.takeWhile fun en => decide (en.accessTime < expire)).take (r + 1)) := by
  induction l with
  | nil => intro r; simp [expireWalk]
  | cons en rest ih =>
    intro r
    unfold expireWalk
    by_cases hp : en.accessTime ≥ expire
    · have hdec : decide (en.accessTime < expire) = false := by
        simp only [decide_eq_false_iff_not]
        omega
      simp [hp, List.takeWhile_cons, hdec]
    · have hlt : en.accessTime < expire := lt_of_not_ge hp
      have hdec : decide (en.accessTime < expire) = true := by simp [hlt]
      rw [if_neg hp]
      cases r with
      | zero =>
        simp [List.takeWhile_cons, hdec, Nat.succ_min_succ]
      | succ r' =>
        have hpos : (0:Nat) < r' + 1 + 1 - 1 := by omega
        simp only [Nat.add_sub_cancel, if_pos (by omega : (0:Nat) < r' + 1)]
        rw [ih r']
        simp [List.takeWhile_cons, hdec, Nat.succ_min_succ]

/-- C6: `expireEntries` is a no-op when access-expiry is disabled; otherwise,
on the policy's ascending-access-order list, it removes exactly the entries
before the first one with `accessTime ≥ now - expireAfterAccess`, capped at
`drainMax = 16` removals, and keeps the rest.  Each removed entry is one
listener firing and one recorded eviction. -/
theorem expireEntries_bounded_sweep (c : Config) (now : Int) (l : List Entry) :
    (c.expireAfterAccess ≤ 0 → expireEntries c now l = (l, [])) ∧
    (0 < c.expireAfterAccess →
      expireEntries c now l =
        (l.drop (min drainMax (l.takeWhile fun en =>
            decide (en.accessTime < now - c.expireAfterAccess)).length),
         (l.takeWhile fun en =>
            decide (en.accessTime < now - c.expireAfterAccess)).take drainMax)) := by
  constructor
  · intro h
    unfold expireEntries
    rw [if_pos h]
  · intro h
    unfold expireEntries
    rw [if_neg (by omega : ¬ c.expireAfterAccess ≤ 0)]
    have h16 : drainMax = 15 + 1 := rfl
    rw [h16]
    exact expireWalk_eq _ l 15

/-- C6 (witness): with cutoff 90 and seventeen entries all at access time 0,
the sweep removes exactly the first sixteen and leaves the seventeenth. -/
theorem expireEntries_bounded_sweep_witness :
    (0:Int) < 10 ∧
    expireEntries ⟨10, 0, 0, 0, none⟩ 100
        ((List.range 17).map fun i => (⟨i, i, 0, 0, 0, false, false⟩ : Entry)) =
      ([⟨16, 16, 0, 0, 0, false, false⟩],
       (List.range 16).map fun i => (⟨i, i, 0, 0, 0, false, false⟩ : Entry)) :=
  ⟨by decide,
    (expireEntries_bounded_sweep ⟨10, 0, 0, 0, none⟩ 100
      ((List.range 17).map fun i => (⟨i, i, 0, 0, 0, false, false⟩ : Entry))).2
      (by decide)⟩

/-- C7: no operation consults `refreshAfterWrite` (nor `needRefresh`):
changing that duration to any value leaves `GetIfPresent`, `Put`,
`Invalidate`, `Get` and `Refresh` — results, stats and state — unchanged;
only `isExpired` gates refresh. -/
theorem refreshAfterWrite_never_consulted (c : Config) (d : Int) (s : CacheState)
    (k : Key) (v : Value) (now finish : Int) :
    GetIfPresent { c with refreshAfterWrite := d } s k now = GetIfPresent c s k now ∧
    Put { c with refreshAfterWrite := d } s k v now = Put c s k v now ∧
    Invalidate { c with refreshAfterWrite := d } s k = Invalidate c s k ∧
    Get { c with refreshAfterWrite := d } s k now finish = Get c s k now finish ∧
    Refresh { c with refreshAfterWrite := d } s k now finish = Refresh c s k now finish :=
  ⟨rfl, rfl, rfl, rfl, rfl⟩

/-- Helper: `refreshAsync` is a no-op when the key is absent. -/
theorem refreshAsync_absent {s : CacheState} {k : Key}
    (h : tableGet s.table k = none) : refreshAsync s k = s := by
  unfold refreshAsync
  rw [h]

/-- Helper: `refreshAsync` is a no-op when the entry is already loading. -/
theorem refreshAsync_already_loading {s : CacheState} {k : Key} {en : Entry}
    (h : tableGet s.table k = some en) (hl : en.loading = true) :
    refreshAsync s k = s := by
  unfold refreshAsync
  simp [h, hl]

/-- Helper: `refreshAsync` on a non-loading entry sets the flag and submits one task. -/
theorem refreshAsync_submits {s : CacheState} {k : Key} {en : Entry}
    (h : tableGet s.table k = some en) (hl : en.loading = false) :
    refreshAsync s k =
      { s with table := tableUpdate s.table k { en with loading := true },
               submitted := s.submitted + 1 } := by
  unfold refreshAsync
  simp [h, hl]

/-- C8: `refreshAsync` submits a task exactly when it transitions `loading`
from false to true; while the flag is set further calls are no-ops, so any
number of interleaved `refreshAsync` steps submit at most one task; and
`refresh` clears the flag on return. -/
theorem refreshAsync_at_most_once (c : Config) (s : CacheState) (k : Key) (en : Entry)
    (hen : tableGet s.table k = some en) :
    (en.loading = false →
      (refreshAsync s k).submitted = s.submitted + 1 ∧
      tableGet (refreshAsync s k).table k = some { en with loading := true }) ∧
    (en.loading = true → refreshAsync s k = s) ∧
    (∀ n : Nat, ((fun t => refreshAsync t k)^[n] s).submitted ≤ s.submitted + 1) ∧
    (∀ f start finish, c.loader = some f →
      ∃ en', tableGet (refresh c s k start finish).table k = some en' ∧
        en'.loading = false) := by
  have hkey : en.key = k := tableGet_key hen
  have hnewtab : en.loading = false →
      tableGet (refreshAsync s k).table k = some { en with loading := true } := by
    intro hl
    rw [refreshAsync_submits hen hl]
    apply tableGet_update_self
    · exact hen
    · show en.key = k
      exact hkey
  refine ⟨?_, ?_, ?_, ?_⟩
  · intro hl
    refine ⟨?_, hnewtab hl⟩
    rw [refreshAsync_submits hen hl]
  · intro hl
    exact refreshAsync_already_loading hen hl
  · intro n
    cases hl : en.loading
    · cases n with
      | zero => simp
      | succ m =>
        rw [Function.iterate_succ_apply]
        have hfix : refreshAsync (refreshAsync s k) k = refreshAsync s k :=
          refreshAsync_already_loading (hnewtab hl) rfl
        rw [Function.iterate_fixed hfix]
        show (refreshAsync s k).submitted ≤ s.submitted + 1
        rw [refreshAsync_submits hen hl]
    · rw [Function.iterate_fixed (refreshAsync_already_loading hen hl)]
      omega
  · intro f start finish hl
    unfold refresh
    simp only [hl, hen]
    cases hfk : f k with
    | ok v =>
      simp only [hfk]
      apply Exists.intro
      constructor
      · apply tableGet_update_self
        · exact hen
        · show en.key = k
          exact hkey
      · rfl
    | error e =>
      simp only [hfk]
      apply Exists.intro
      constructor
      · apply tableGet_update_self
        · exact hen
        · show en.key = k
          exact hkey
      · rfl

/-- C8 (witness): on a concrete entry with `loading = false`, three successive
`refreshAsync` steps submit at most one task. -/
theorem refreshAsync_at_most_once_witness :
    tableGet [(⟨1, 1, 5, 0, 0, false, false⟩ : Entry)] 1 =
        some ⟨1, 1, 5, 0, 0, false, false⟩ ∧
    ((fun t => refreshAsync t 1)^[3]
        ⟨[⟨1, 1, 5, 0, 0, false, false⟩], [], [], [], 0, 0, [], [], 0⟩).submitted ≤ 0 + 1 :=
  ⟨by decide,
    (refreshAsync_at_most_once ⟨0, 0, 0, 0, some fun _ => .ok 9⟩
      ⟨[⟨1, 1, 5, 0, 0, false, false⟩], [], [], [], 0, 0, [], [], 0⟩ 1
      ⟨1, 1, 5, 0, 0, false, false⟩ (by decide)).2.2.1 3⟩

/-- C9: `WithMaximumSize` maps every negative size to 0 (unlimited) and clamps
sizes above `maximumCapacity = 2^30` to it; and on an unlimited cache
(`cap = 0`), `Put` of an absent key always inserts the new entry directly into
the hash table. -/
theorem withMaximumSize_normalizes (n : Int) (c : Config) (s : CacheState) (k : Key)
    (v : Value) (now : Int) :
    (n < 0 → (WithMaximumSize n c).cap = 0) ∧
    (maximumCapacity < n → (WithMaximumSize n c).cap = maximumCapacity) ∧
    (c.cap = 0 → tableGet s.table k = none →
      (Put c s k v now).table =
        s.table ++ [{ newEntry k v (sum k) with writeTime := now, accessTime := now }]) := by
  have hmax : maximumCapacity = 1073741824 := by decide
  refine ⟨?_, ?_, ?_⟩
  · intro h
    unfold WithMaximumSize
    have h2 : ¬ (0:Int) > maximumCapacity := by omega
    simp [h, h2]
  · intro h
    unfold WithMaximumSize
    have h1 : ¬ n < 0 := by omega
    have h2 : n > maximumCapacity := h
    simp [h1, h2]
  · intro hcap hk
    unfold Put
    simp [hk, hcap, getOrSet, newEntry]

/-- C9 (witness): size −5 becomes unlimited, size 2^30 + 1 is clamped, and a
`Put` on the unlimited empty cache lands in the table at once. -/
theorem withMaximumSize_normalizes_witness :
    ((-5:Int) < 0 ∧ (WithMaximumSize (-5) ⟨0, 0, 0, 0, none⟩).cap = 0) ∧
    (maximumCapacity < maximumCapacity + 1 ∧
      (WithMaximumSize (maximumCapacity + 1) ⟨0, 0, 0, 0, none⟩).cap = maximumCapacity) ∧
    (Put ⟨0, 0, 0, 0, none⟩ ⟨[], [], [], [], 0, 0, [], [], 0⟩ 2 9 0).table =
      [⟨2, 2, 9, 0, 0, false, false⟩] :=
  ⟨⟨by decide,
      (withMaximumSize_normalizes (-5) ⟨0, 0, 0, 0, none⟩
        ⟨[], [], [], [], 0, 0, [], [], 0⟩ 2 9 0).1 (by decide)⟩,
   ⟨by decide,
      (withMaximumSize_normalizes (maximumCapacity + 1) ⟨0, 0, 0, 0, none⟩
        ⟨[], [], [], [], 0, 0, [], [], 0⟩ 2 9 0).2.1 (by decide)⟩,
   (withMaximumSize_normalizes 0 ⟨0, 0, 0, 0, none⟩
      ⟨[], [], [], [], 0, 0, [], [], 0⟩ 2 9 0).2.2 rfl rfl⟩

end CovromCache
